import Mathlib

/-!
The in-memory task store of `mytodo` (`taskstore.go`, `handlers.go`).

A shallow embedding of the Go type `TaskStore` and of its methods, followed by
the properties of the store that the specification states.

Modelling decisions.

* A Go `map[int]Task` is a finite map with pairwise distinct keys.  It is
  embedded as an association list without duplicate keys (`AList`).  The order
  of the entries of the list stands for the order in which a `range` loop
  visits the map, which Go leaves unspecified: a statement quantified over all
  store states is thereby quantified over all visiting orders.
* Go's `int` is embedded as `Int`.  The only arithmetic of the store is
  `ts.nextId++`; the counter starts at `0` and moves by one per call of
  `CreateTask`, so it leaves the 64-bit range only after `2^63 - 1` calls, and
  the wrap-around of `int` is not modelled.
* A call of a method is a function from the state before the call to the
  value(s) returned and the state after the call.  The embedded `sync.Mutex`
  has no content in this sequential reading and is not part of the state.
* The namespace `Traced` holds a second reading of the same methods, statement
  by statement, which records every `Lock`, every `Unlock` and every read or
  write of a field; it agrees with the functional reading on the value returned
  and on the store (`traced_call_run`).
* Of `handlers.go`, the router `taskHandler` is embedded by what it decides:
  the handler it calls, or the status code it passes to `http.Error`.  Bodies
  and headers of responses are not modelled.
* `error` is embedded as `Option String`: `none` is `nil`, `some msg` is the
  error built by `fmt.Errorf`.
-/

namespace Mytodo

/-- Modelled from the spec: the timestamp type `time.Time` of Go's standard
library is not part of the repository.  The spec asks for "a timestamp
(date+time, with time zone)" that supports "date-component extraction (year,
month, day) in its own time zone"; the record holds the calendar reading of the
instant in its own zone, the time of day and the zone offset. -/
structure Time where
  year : Int
  month : Int
  day : Int
  hour : Nat
  minute : Nat
  second : Nat
  nsec : Nat
  zoneOffset : Int
deriving DecidableEq, Repr

/-- Modelled from the spec: `time.Time.Date`, the year, month and day in which
the instant falls in the timestamp's own zone. -/
def Time.Date (t : Time) : Int × Int × Int := (t.year, t.month, t.day)

/-- Modelled from the spec: the zero value of `time.Time`
(January 1, year 1, 00:00:00 UTC). -/
def Time.zero : Time := ⟨1, 1, 1, 0, 0, 0, 0, 0⟩

/-- Modelled from the spec: `time.Date(year, month, day, 0, 0, 0, 0, time.UTC)`,
midnight UTC of a calendar date. -/
def Time.ofDate (year month day : Int) : Time := ⟨year, month, day, 0, 0, 0, 0, 0⟩

/-- The struct `Task` (`taskstore.go`, lines 9-14). -/
structure Task where
  Id : Int
  Text : String
  Tags : List String
  Due : Time
deriving DecidableEq, Repr

/-- The zero value of `Task`, which Go yields when a map lookup misses. -/
def Task.zero : Task := ⟨0, "", [], Time.zero⟩

/-- The type of the field `tasks`: a finite map from `int` to `Task`. -/
abbrev TaskMap : Type := AList (fun _ : Int => Task)

/-- The struct `TaskStore` (`taskstore.go`, lines 16-21). -/
structure TaskStore where
  tasks : TaskMap
  nextId : Int
deriving DecidableEq

/-- The function `New` (lines 32-37): an empty map and the counter at `0`. -/
def New : TaskStore := { tasks := ∅, nextId := 0 }

namespace TaskStore

/-- The struct literal of `CreateTask` (lines 43-48): the task that the call
stores. -/
def newTask (ts : TaskStore) (text : String) (tags : List String) (due : Time) : Task :=
  { Id := ts.nextId, Text := text, Tags := tags, Due := due }

/-- The method `CreateTask` (lines 40-52): the value returned and the state
after the call. -/
def CreateTask (ts : TaskStore) (text : String) (tags : List String) (due : Time) :
    Int × TaskStore :=
  let task := ts.newTask text tags due
  let ts1 : TaskStore := { ts with tasks := ts.tasks.insert ts.nextId task }
  let ts2 : TaskStore := { ts1 with nextId := ts1.nextId + 1 }
  (ts2.nextId, ts2)

/-- The error value of `GetTask` and `DeleteTask`:
`fmt.Errorf("id = %d not found", id)`. -/
def notFound (id : Int) : String := "id = " ++ toString id ++ " not found"

/-- The method `GetTask` (lines 56-65): the task and the error returned.  The
call does not write to the store. -/
def GetTask (ts : TaskStore) (id : Int) : Task × Option String :=
  match ts.tasks.lookup id with
  | some t => (t, none)
  | none => (Task.zero, some (notFound id))

/-- The method `DeleteTask` (lines 69-80): the error returned and the state
after the call. -/
def DeleteTask (ts : TaskStore) (id : Int) : Option String × TaskStore :=
  match ts.tasks.lookup id with
  | none => (some (notFound id), ts)
  | some _ => (none, { ts with tasks := ts.tasks.erase id })

/-- The method `DeleteAllTasks` (lines 83-88): the error returned and the state
after the call. -/
def DeleteAllTasks (ts : TaskStore) : Option String × TaskStore :=
  (none, { ts with tasks := ∅ })

/-- The method `GetAllTasks` (lines 91-98): one `append` per entry visited. -/
def GetAllTasks (ts : TaskStore) : List Task :=
  ts.tasks.entries.foldl (fun tasks e => tasks ++ [e.2]) []

/-- The inner loop of `GetTasksByTag` (lines 109-113), run on one task. -/
def appendPerTag (tag : String) (task : Task) (tasks : List Task) : List Task :=
  task.Tags.foldl (fun acc taskTag => if taskTag = tag then acc ++ [task] else acc) tasks

/-- The method `GetTasksByTag` (lines 102-116). -/
def GetTasksByTag (ts : TaskStore) (tag : String) : List Task :=
  ts.tasks.entries.foldl (fun tasks e => appendPerTag tag e.2 tasks) []

/-- The method `GetTasksByDueDate` (lines 120-134). -/
def GetTasksByDueDate (ts : TaskStore) (year month day : Int) : List Task :=
  ts.tasks.entries.foldl
    (fun tasks e =>
      match e.2.Due.Date with
      | (y, m, d) => if y = year ∧ m = month ∧ d = day then tasks ++ [e.2] else tasks)
    []

end TaskStore

/-- One call of a method of the store, with its arguments. -/
inductive Op where
  | create (text : String) (tags : List String) (due : Time)
  | get (id : Int)
  | delete (id : Int)
  | deleteAll
  | getAll
  | byTag (tag : String)
  | byDueDate (year month day : Int)
deriving DecidableEq

/-- The state of the store after one call.  `GetTask` and the three list
queries only read the store. -/
def Op.next (ts : TaskStore) : Op → TaskStore
  | .create text tags due => (ts.CreateTask text tags due).2
  | .get _ => ts
  | .delete id => (ts.DeleteTask id).2
  | .deleteAll => ts.DeleteAllTasks.2
  | .getAll => ts
  | .byTag _ => ts
  | .byDueDate _ _ _ => ts

/-- The state of the store after a sequence of calls, made in list order. -/
def run (ts : TaskStore) (ops : List Op) : TaskStore := ops.foldl Op.next ts

/-- The value returned by a call, when the call is a `CreateTask`. -/
def Op.returned (ts : TaskStore) : Op → Option Int
  | .create text tags due => some (ts.CreateTask text tags due).1
  | _ => none

/-- The `Id` field of the task that a call stores, when the call is a
`CreateTask`. -/
def Op.assigned (ts : TaskStore) : Op → Option Int
  | .create text tags due => some (ts.newTask text tags due).Id
  | _ => none

/-- The values returned by the `CreateTask` calls of a sequence of calls, in
call order. -/
def createReturns : TaskStore → List Op → List Int
  | _, [] => []
  | ts, op :: ops => (Op.returned ts op).toList ++ createReturns (Op.next ts op) ops

/-- The `Id` fields of the tasks stored by the `CreateTask` calls of a sequence
of calls, in call order. -/
def assignedIds : TaskStore → List Op → List Int
  | _, [] => []
  | ts, op :: ops => (Op.assigned ts op).toList ++ assignedIds (Op.next ts op) ops

/-- Every key of the map is non-negative and below the counter. -/
def KeysBelowNext (ts : TaskStore) : Prop :=
  ∀ k ∈ ts.tasks.keys, 0 ≤ k ∧ k < ts.nextId

instance (ts : TaskStore) : Decidable (KeysBelowNext ts) := by
  unfold KeysBelowNext
  infer_instance

/-- Every task of the map is stored under its own `Id`. -/
def IdIsKey (ts : TaskStore) : Prop :=
  ∀ e ∈ ts.tasks.entries, e.2.Id = e.1

instance (ts : TaskStore) : Decidable (IdIsKey ts) := by
  unfold IdIsKey
  infer_instance

/-- Whether a call is a `CreateTask`. -/
def Op.isCreate : Op → Bool
  | .create _ _ _ => true
  | _ => false

/-- The scenario of the specification, first call: task A is created on the
store of `New`. -/
def scenarioA : Task := New.newTask "buy milk" ["errand"] (Time.ofDate 2024 1 5)

/-- The store after the creation of task A. -/
def scenarioStore1 : TaskStore :=
  (New.CreateTask "buy milk" ["errand"] (Time.ofDate 2024 1 5)).2

/-- The scenario of the specification, second call: task B. -/
def scenarioB : Task :=
  scenarioStore1.newTask "write report" ["work", "urgent"] (Time.ofDate 2024 1 5)

/-- The store after the creation of tasks A and B. -/
def scenarioStore2 : TaskStore :=
  (scenarioStore1.CreateTask "write report" ["work", "urgent"] (Time.ofDate 2024 1 5)).2

/-- The scenario of the specification, third call: task C. -/
def scenarioC : Task := scenarioStore2.newTask "call mom" ["errand"] (Time.ofDate 2024 1 6)

/-- The store after the creation of tasks A, B and C. -/
def scenarioStore3 : TaskStore :=
  (scenarioStore2.CreateTask "call mom" ["errand"] (Time.ofDate 2024 1 6)).2

/-- The value returned by a call of a method of the store. -/
inductive Ret where
  | id (v : Int)
  | task (t : Task) (err : Option String)
  | err (e : Option String)
  | tasks (l : List Task)
deriving DecidableEq

/-- The value returned by one call. -/
def Op.ret (ts : TaskStore) : Op → Ret
  | .create text tags due => .id (ts.CreateTask text tags due).1
  | .get id => .task (ts.GetTask id).1 (ts.GetTask id).2
  | .delete id => .err (ts.DeleteTask id).1
  | .deleteAll => .err ts.DeleteAllTasks.1
  | .getAll => .tasks ts.GetAllTasks
  | .byTag tag => .tasks (ts.GetTasksByTag tag)
  | .byDueDate year month day => .tasks (ts.GetTasksByDueDate year month day)

/-- The values returned by a sequence of calls, in call order. -/
def results : TaskStore → List Op → List Ret
  | _, [] => []
  | ts, op :: ops => Op.ret ts op :: results (Op.next ts op) ops

/-- What one statement of a method body does to the mutex of the store or to
one of its two fields. -/
inductive Event where
  | lock
  | unlock
  | readTasks
  | writeTasks
  | readNextId
  | writeNextId
deriving DecidableEq, Repr

/-- The store together with the events of the statements run so far, oldest
first. -/
structure Mem where
  store : TaskStore
  events : List Event

/-- A method body: a computation on the store that records its events. -/
abbrev Body : Type → Type := StateM Mem

namespace Traced

/-- Record one event. -/
def emit (e : Event) : Body Unit :=
  modify fun m => { m with events := m.events ++ [e] }

/-- The statement `ts.Lock()`. -/
def Lock : Body Unit := emit Event.lock

/-- The call `ts.Unlock()`, which `defer` runs when the method returns. -/
def Unlock : Body Unit := emit Event.unlock

/-- A read of the field `ts.nextId`. -/
def readNextId : Body Int := do
  emit Event.readNextId
  return (← get).store.nextId

/-- A write of the field `ts.nextId`. -/
def writeNextId (n : Int) : Body Unit := do
  emit Event.writeNextId
  modify fun m => { m with store := { m.store with nextId := n } }

/-- The map index expression `ts.tasks[id]` with the comma-ok form. -/
def mapIndex (id : Int) : Body (Option Task) := do
  emit Event.readTasks
  return (← get).store.tasks.lookup id

/-- The start of a loop `range ts.tasks`: the entries in visiting order. -/
def mapRange : Body (List (Sigma (fun _ : Int => Task))) := do
  emit Event.readTasks
  return (← get).store.tasks.entries

/-- The map assignment `ts.tasks[k] = task`. -/
def mapAssign (k : Int) (task : Task) : Body Unit := do
  emit Event.writeTasks
  modify fun m => { m with store := { m.store with tasks := m.store.tasks.insert k task } }

/-- The statement `delete(ts.tasks, id)`. -/
def mapDelete (id : Int) : Body Unit := do
  emit Event.writeTasks
  modify fun m => { m with store := { m.store with tasks := m.store.tasks.erase id } }

/-- The assignment `ts.tasks = make(map[int]Task)`. -/
def mapReset : Body Unit := do
  emit Event.writeTasks
  modify fun m => { m with store := { m.store with tasks := ∅ } }

/-- The method `CreateTask` (lines 40-52), statement by statement. -/
def CreateTask (text : String) (tags : List String) (due : Time) : Body Int := do
  Lock
  let task : Task := { Id := (← readNextId), Text := text, Tags := tags, Due := due }
  let k ← readNextId
  mapAssign k task
  let n ← readNextId
  writeNextId (n + 1)
  let r ← readNextId
  Unlock
  return r

/-- The method `GetTask` (lines 56-65), statement by statement. -/
def GetTask (id : Int) : Body (Task × Option String) := do
  Lock
  match (← mapIndex id) with
  | some t =>
    Unlock
    return (t, none)
  | none =>
    Unlock
    return (Task.zero, some (TaskStore.notFound id))

/-- The method `DeleteTask` (lines 69-80), statement by statement. -/
def DeleteTask (id : Int) : Body (Option String) := do
  Lock
  match (← mapIndex id) with
  | none =>
    Unlock
    return some (TaskStore.notFound id)
  | some _ =>
    mapDelete id
    Unlock
    return none

/-- The method `DeleteAllTasks` (lines 83-88), statement by statement. -/
def DeleteAllTasks : Body (Option String) := do
  Lock
  mapReset
  Unlock
  return none

/-- The method `GetAllTasks` (lines 91-98), statement by statement: the body
has no `ts.Lock()`. -/
def GetAllTasks : Body (List Task) := do
  let entries ← mapRange
  return entries.foldl (fun tasks e => tasks ++ [e.2]) []

/-- The method `GetTasksByTag` (lines 102-116), statement by statement. -/
def GetTasksByTag (tag : String) : Body (List Task) := do
  Lock
  let entries ← mapRange
  let tasks := entries.foldl (fun tasks e => TaskStore.appendPerTag tag e.2 tasks) []
  Unlock
  return tasks

/-- The method `GetTasksByDueDate` (lines 120-134), statement by statement. -/
def GetTasksByDueDate (year month day : Int) : Body (List Task) := do
  Lock
  let entries ← mapRange
  let tasks := entries.foldl
    (fun tasks e =>
      match e.2.Due.Date with
      | (y, m, d) => if y = year ∧ m = month ∧ d = day then tasks ++ [e.2] else tasks)
    []
  Unlock
  return tasks

/-- One call, statement by statement. -/
def call : Op → Body Ret
  | .create text tags due => do return Ret.id (← CreateTask text tags due)
  | .get id => do
    let r ← GetTask id
    return Ret.task r.1 r.2
  | .delete id => do return Ret.err (← DeleteTask id)
  | .deleteAll => do return Ret.err (← DeleteAllTasks)
  | .getAll => do return Ret.tasks (← GetAllTasks)
  | .byTag tag => do return Ret.tasks (← GetTasksByTag tag)
  | .byDueDate year month day => do return Ret.tasks (← GetTasksByDueDate year month day)

/-- The events of one call made on a store. -/
def trace (ts : TaskStore) (op : Op) : List Event :=
  ((call op).run { store := ts, events := [] }).2.events

end Traced

/-- Whether a sequence of events keeps the lock discipline, given whether the
mutex is held at its start: a field is read or written only while the mutex is
held, the mutex is locked only when free and unlocked only when held, and it is
free at the end. -/
def guardedFrom : Bool → List Event → Bool
  | held, [] => !held
  | held, Event.lock :: es => !held && guardedFrom true es
  | held, Event.unlock :: es => held && guardedFrom false es
  | held, _ :: es => held && guardedFrom held es

/-! ### The request router (`handlers.go`) -/

/-- Modelled from the spec: `strings.Trim(s, cutset)` of Go's standard library,
which is not part of the repository: `s` without the leading and trailing
characters that occur in `cutset`. -/
def stringsTrim (s cutset : String) : String :=
  String.mk
    (((s.toList.dropWhile (fun c => cutset.toList.contains c)).reverse.dropWhile
      (fun c => cutset.toList.contains c)).reverse)

/-- Split a sequence of characters at every occurrence of `sep`. -/
def splitChars (sep : Char) : List Char → List (List Char)
  | [] => [[]]
  | c :: cs =>
    if c = sep then [] :: splitChars sep cs
    else
      match splitChars sep cs with
      | [] => [[c]]
      | part :: parts => (c :: part) :: parts

/-- Modelled from the spec: `strings.Split(s, sep)` of Go's standard library,
for a separator of one character (the router splits at "/"): the pieces of `s`
between the occurrences of `sep`, empty pieces included. -/
def stringsSplit (s : String) (sep : Char) : List String :=
  (splitChars sep s.toList).map String.mk

/-- Whether a text is a decimal integer: an optional sign followed by one or
more decimal digits. -/
def isDecimalInteger (s : String) : Bool :=
  match s.toList with
  | [] => false
  | c :: cs =>
    if c = '+' ∨ c = '-' then !cs.isEmpty && cs.all Char.isDigit
    else (c :: cs).all Char.isDigit

/-- The number that a sequence of decimal digits denotes. -/
def digitsValue (ds : List Char) : Int :=
  ds.foldl (fun acc c => acc * 10 + ((c.toNat : Int) - 48)) 0

/-- The integer that a decimal integer denotes. -/
def decimalValue (s : String) : Int :=
  match s.toList with
  | [] => 0
  | c :: cs =>
    if c = '-' then - digitsValue cs
    else if c = '+' then digitsValue cs
    else digitsValue (c :: cs)

/-- Modelled from the spec: `strconv.Atoi` of Go's standard library, which is
not part of the repository; `none` stands for a non-nil error.  The call
succeeds on an optional sign followed by decimal digits whose value fits the
type `int` (64 bits), and fails with a syntax error or a range error
otherwise. -/
def strconvAtoi (s : String) : Option Int :=
  if isDecimalInteger s then
    if decimalValue s < -(2 ^ 63) ∨ 2 ^ 63 - 1 < decimalValue s then none
    else some (decimalValue s)
  else none

/-- The constant `http.MethodGet`. -/
def MethodGet : String := "GET"

/-- The constant `http.MethodPost`. -/
def MethodPost : String := "POST"

/-- The constant `http.MethodDelete`. -/
def MethodDelete : String := "DELETE"

/-- The constant `http.StatusBadRequest`. -/
def StatusBadRequest : Nat := 400

/-- The constant `http.StatusMethodNotAllowed`. -/
def StatusMethodNotAllowed : Nat := 405

/-- The two fields of `http.Request` that `taskHandler` reads: `req.Method` and
`req.URL.Path`. -/
structure Request where
  Method : String
  Path : String
deriving DecidableEq

/-- What `taskHandler` does with a request: it hands the request to one of the
five handlers, or it answers by `http.Error` with a status code. -/
inductive Dispatch where
  | createTaskHandler
  | getAllTasksHandler
  | deleteAllTasksHandler
  | deleteTaskHandler (id : Int)
  | getTaskHandler (id : Int)
  | httpError (code : Nat)
deriving DecidableEq, Repr

/-- The method `taskHandler` (`handlers.go`, lines 12-48). -/
def taskHandler (req : Request) : Dispatch :=
  if req.Path = "/task/" then
    if req.Method = MethodPost then Dispatch.createTaskHandler
    else if req.Method = MethodGet then Dispatch.getAllTasksHandler
    else if req.Method = MethodDelete then Dispatch.deleteAllTasksHandler
    else Dispatch.httpError StatusMethodNotAllowed
  else
    let path := stringsTrim req.Path "/"
    let pathParts := stringsSplit path '/'
    if pathParts.length < 2 then Dispatch.httpError StatusBadRequest
    else
      match strconvAtoi (pathParts.getD 1 "") with
      | none => Dispatch.httpError StatusBadRequest
      | some id =>
        if req.Method = MethodDelete then Dispatch.deleteTaskHandler id
        else if req.Method = MethodGet then Dispatch.getTaskHandler id
        else Dispatch.httpError StatusMethodNotAllowed

/-- The id segment of a path: the second of the segments between slashes, once
the leading and trailing slashes are removed; `none` when there is none. -/
def idSegment (path : String) : Option String :=
  (stringsSplit (stringsTrim path "/") '/').get? 1

open TaskStore

/-! ## The effect of one call on the counter and on the keys -/

theorem CreateTask_fst (ts : TaskStore) (text : String) (tags : List String) (due : Time) :
    (ts.CreateTask text tags due).1 = ts.nextId + 1 := rfl

theorem CreateTask_nextId (ts : TaskStore) (text : String) (tags : List String) (due : Time) :
    (ts.CreateTask text tags due).2.nextId = ts.nextId + 1 := rfl

theorem CreateTask_tasks (ts : TaskStore) (text : String) (tags : List String) (due : Time) :
    (ts.CreateTask text tags due).2.tasks
      = ts.tasks.insert ts.nextId (ts.newTask text tags due) := rfl

theorem DeleteTask_nextId (ts : TaskStore) (id : Int) :
    (ts.DeleteTask id).2.nextId = ts.nextId := by
  unfold DeleteTask
  cases ts.tasks.lookup id <;> rfl

theorem mem_DeleteTask_tasks (ts : TaskStore) (id k : Int) :
    k ∈ (ts.DeleteTask id).2.tasks → k ∈ ts.tasks := by
  unfold DeleteTask
  cases ts.tasks.lookup id with
  | none => exact fun h => h
  | some t => exact fun h => (AList.mem_erase.mp h).2

theorem next_nextId_le (ts : TaskStore) (op : Op) : ts.nextId ≤ (Op.next ts op).nextId := by
  cases op with
  | create text tags due => simp [Op.next, CreateTask_nextId]
  | delete id => simp [Op.next, DeleteTask_nextId]
  | _ => simp [Op.next, DeleteAllTasks]

theorem run_nil (ts : TaskStore) : run ts [] = ts := rfl

theorem run_cons (ts : TaskStore) (op : Op) (ops : List Op) :
    run ts (op :: ops) = run (Op.next ts op) ops := rfl

theorem run_append (ts : TaskStore) (ops ops' : List Op) :
    run ts (ops ++ ops') = run (run ts ops) ops' := by
  simp [run, List.foldl_append]

theorem run_nextId_le (ops : List Op) : ∀ ts : TaskStore, ts.nextId ≤ (run ts ops).nextId := by
  induction ops with
  | nil => intro ts; exact le_refl _
  | cons op ops ih =>
    intro ts
    rw [run_cons]
    exact le_trans (next_nextId_le ts op) (ih _)

theorem keysBelowNext_New : KeysBelowNext New := by
  intro k hk
  exact absurd hk (AList.not_mem_empty k)

theorem keysBelowNext_next (ts : TaskStore) (op : Op) (h : KeysBelowNext ts)
    (h0 : 0 ≤ ts.nextId) : KeysBelowNext (Op.next ts op) := by
  intro k hk
  cases op with
  | create text tags due =>
    simp only [Op.next, CreateTask_tasks, CreateTask_nextId] at hk ⊢
    rcases (AList.mem_insert ts.tasks).mp hk with rfl | hk'
    · exact ⟨h0, by omega⟩
    · have := h k hk'
      exact ⟨this.1, by omega⟩
  | delete id =>
    simp only [Op.next, DeleteTask_nextId] at hk ⊢
    exact h k (mem_DeleteTask_tasks ts id k hk)
  | deleteAll => exact absurd hk (AList.not_mem_empty k)
  | get id => exact h k hk
  | getAll => exact h k hk
  | byTag tag => exact h k hk
  | byDueDate y m d => exact h k hk

theorem keysBelowNext_run (ops : List Op) :
    ∀ ts : TaskStore, KeysBelowNext ts → 0 ≤ ts.nextId → KeysBelowNext (run ts ops) := by
  induction ops with
  | nil => intro ts h _; exact h
  | cons op ops ih =>
    intro ts h h0
    rw [run_cons]
    exact ih _ (keysBelowNext_next ts op h h0) (le_trans h0 (next_nextId_le ts op))

theorem keysBelowNext_reachable (ops : List Op) : KeysBelowNext (run New ops) :=
  keysBelowNext_run ops New keysBelowNext_New (le_refl _)

theorem nextId_not_mem_of_keysBelowNext (ts : TaskStore) (h : KeysBelowNext ts) :
    ts.nextId ∉ ts.tasks := fun hk => lt_irrefl _ (h _ hk).2

/-! ## The values returned and the identifiers assigned along a sequence of calls -/

theorem mem_returned (ts : TaskStore) (op : Op) (v : Int) (h : v ∈ (Op.returned ts op).toList) :
    v = ts.nextId + 1 ∧ (Op.next ts op).nextId = ts.nextId + 1 := by
  cases op <;> simp_all [Op.returned, Op.next, CreateTask_fst, CreateTask_nextId]

theorem mem_assigned (ts : TaskStore) (op : Op) (v : Int) (h : v ∈ (Op.assigned ts op).toList) :
    v = ts.nextId ∧ (Op.next ts op).nextId = ts.nextId + 1 := by
  cases op <;> simp_all [Op.assigned, Op.next, newTask, CreateTask_nextId]

theorem createReturns_gt (ops : List Op) :
    ∀ (ts : TaskStore) (v : Int), v ∈ createReturns ts ops → ts.nextId < v := by
  induction ops with
  | nil => intro ts v h; simp [createReturns] at h
  | cons op ops ih =>
    intro ts v h
    simp only [createReturns, List.mem_append] at h
    rcases h with h | h
    · have := (mem_returned ts op v h).1
      omega
    · exact lt_of_le_of_lt (next_nextId_le ts op) (ih _ v h)

theorem createReturns_pairwise (ops : List Op) :
    ∀ ts : TaskStore, (createReturns ts ops).Pairwise (· < ·) := by
  induction ops with
  | nil => intro ts; simp [createReturns]
  | cons op ops ih =>
    intro ts
    simp only [createReturns]
    rw [List.pairwise_append]
    refine ⟨?_, ih _, ?_⟩
    · cases op <;> simp [Op.returned]
    · intro a ha b hb
      have h1 := mem_returned ts op a ha
      have h2 := createReturns_gt ops _ b hb
      omega

theorem assignedIds_bounds (ops : List Op) :
    ∀ (ts : TaskStore) (v : Int), v ∈ assignedIds ts ops →
      ts.nextId ≤ v ∧ v < (run ts ops).nextId := by
  induction ops with
  | nil => intro ts v h; simp [assignedIds] at h
  | cons op ops ih =>
    intro ts v h
    simp only [assignedIds, List.mem_append] at h
    rw [run_cons]
    rcases h with h | h
    · have h1 := mem_assigned ts op v h
      have h2 := run_nextId_le ops (Op.next ts op)
      omega
    · have h1 := ih _ v h
      have h2 := next_nextId_le ts op
      omega

theorem assignedIds_pairwise (ops : List Op) :
    ∀ ts : TaskStore, (assignedIds ts ops).Pairwise (· < ·) := by
  induction ops with
  | nil => intro ts; simp [assignedIds]
  | cons op ops ih =>
    intro ts
    simp only [assignedIds]
    rw [List.pairwise_append]
    refine ⟨?_, ih _, ?_⟩
    · cases op <;> simp [Op.assigned]
    · intro a ha b hb
      have h1 := mem_assigned ts op a ha
      have h2 := (assignedIds_bounds ops _ b hb).1
      omega

/-! ## Closed forms of the loops -/

theorem foldl_append_flatMap {α β : Type} (g : α → List β) (l : List α) :
    ∀ init : List β, l.foldl (fun acc a => acc ++ g a) init = init ++ l.flatMap g := by
  induction l with
  | nil => intro init; simp
  | cons a l ih => intro init; simp [ih, List.append_assoc]

theorem appendPerTag_eq (tag : String) (task : Task) (tasks : List Task) :
    appendPerTag tag task tasks
      = tasks ++ task.Tags.flatMap (fun taskTag => if taskTag = tag then [task] else []) := by
  unfold appendPerTag
  rw [← foldl_append_flatMap]
  congr 1
  funext acc taskTag
  split <;> simp

theorem GetAllTasks_eq (ts : TaskStore) :
    ts.GetAllTasks = ts.tasks.entries.map (fun e => e.2) := by
  unfold GetAllTasks
  rw [foldl_append_flatMap (fun e : Sigma (fun _ : Int => Task) => [e.2])]
  induction ts.tasks.entries with
  | nil => rfl
  | cons e l ih => simpa using ih

theorem GetTasksByTag_eq (ts : TaskStore) (tag : String) :
    ts.GetTasksByTag tag
      = ts.tasks.entries.flatMap (fun e =>
          e.2.Tags.flatMap (fun taskTag => if taskTag = tag then [e.2] else [])) := by
  unfold GetTasksByTag
  rw [← List.nil_append (List.flatMap _ _), ← foldl_append_flatMap]
  congr 1
  funext acc e
  exact appendPerTag_eq tag e.2 acc

theorem GetTasksByDueDate_eq (ts : TaskStore) (year month day : Int) :
    ts.GetTasksByDueDate year month day
      = (ts.tasks.entries.map (fun e => e.2)).filter
          (fun t => decide (t.Due.Date = (year, month, day))) := by
  unfold GetTasksByDueDate
  have step : (fun (tasks : List Task) (e : Sigma (fun _ : Int => Task)) =>
        match e.2.Due.Date with
        | (y, m, d) => if y = year ∧ m = month ∧ d = day then tasks ++ [e.2] else tasks)
      = (fun tasks e => tasks ++ (if e.2.Due.Date = (year, month, day) then [e.2] else [])) := by
    funext tasks e
    rcases hd : e.2.Due.Date with ⟨y, m, d⟩
    by_cases h : y = year ∧ m = month ∧ d = day
    · obtain ⟨rfl, rfl, rfl⟩ := h
      simp
    · have h' : ¬ ((y, m, d) = (year, month, day)) := by
        intro hc
        simp only [Prod.mk.injEq] at hc
        exact h hc
      simp [h, h']
  rw [step, foldl_append_flatMap]
  induction ts.tasks.entries with
  | nil => rfl
  | cons e l ih =>
    by_cases h : e.2.Due.Date = (year, month, day)
    · simpa [List.filter_cons, h] using ih
    · simpa [List.filter_cons, h] using ih

theorem stored_iff_mem_entries (ts : TaskStore) (t : Task) :
    (∃ k, ts.tasks.lookup k = some t) ↔ t ∈ ts.tasks.entries.map (fun e => e.2) := by
  constructor
  · rintro ⟨k, hk⟩
    exact List.mem_map.mpr ⟨⟨k, t⟩, AList.mem_lookup_iff.mp hk, rfl⟩
  · intro h
    obtain ⟨⟨k, t'⟩, he, rfl⟩ := List.mem_map.mp h
    exact ⟨k, AList.mem_lookup_iff.mpr he⟩

theorem idIsKey_New : IdIsKey New := by
  intro e he
  simp [New] at he

theorem idIsKey_next (ts : TaskStore) (op : Op) (h : IdIsKey ts) : IdIsKey (Op.next ts op) := by
  cases op with
  | create text tags due =>
    intro e he
    simp only [Op.next, CreateTask_tasks, AList.insert_entries, List.mem_cons] at he
    rcases he with rfl | he
    · rfl
    · exact h e ((List.kerase_sublist _ _).subset he)
  | delete id =>
    intro e he
    simp only [Op.next, DeleteTask] at he
    cases hl : ts.tasks.lookup id with
    | none => rw [hl] at he; exact h e he
    | some t =>
      rw [hl] at he
      exact h e ((List.kerase_sublist _ _).subset he)
  | deleteAll => intro e he; simp [Op.next, DeleteAllTasks] at he
  | get id => exact h
  | getAll => exact h
  | byTag tag => exact h
  | byDueDate y m d => exact h

theorem idIsKey_run (ops : List Op) : ∀ ts : TaskStore, IdIsKey ts → IdIsKey (run ts ops) := by
  induction ops with
  | nil => intro ts h; exact h
  | cons op ops ih => intro ts h; rw [run_cons]; exact ih _ (idIsKey_next ts op h)

theorem nodup_values_of_idIsKey (ts : TaskStore) (h : IdIsKey ts) :
    (ts.tasks.entries.map (fun e => e.2)).Nodup := by
  have hk : ts.tasks.keys.Nodup := ts.tasks.keys_nodup
  have hmap : ts.tasks.keys = (ts.tasks.entries.map (fun e => e.2)).map Task.Id := by
    rw [List.map_map]
    exact List.map_congr_left (fun e he => (h e he).symm)
  rw [hmap] at hk
  exact List.Nodup.of_map _ hk

/-! ## Lookup after `CreateTask` and `DeleteTask` -/

theorem GetTask_of_lookup_some (ts : TaskStore) (id : Int) (t : Task)
    (h : ts.tasks.lookup id = some t) : ts.GetTask id = (t, none) := by
  unfold GetTask
  rw [h]

theorem GetTask_of_lookup_none (ts : TaskStore) (id : Int)
    (h : ts.tasks.lookup id = none) : ts.GetTask id = (Task.zero, some (notFound id)) := by
  unfold GetTask
  rw [h]

theorem DeleteTask_of_lookup_none (ts : TaskStore) (id : Int)
    (h : ts.tasks.lookup id = none) : ts.DeleteTask id = (some (notFound id), ts) := by
  unfold DeleteTask
  rw [h]

theorem DeleteTask_of_lookup_some (ts : TaskStore) (id : Int) (t : Task)
    (h : ts.tasks.lookup id = some t) :
    ts.DeleteTask id = (none, { ts with tasks := ts.tasks.erase id }) := by
  unfold DeleteTask
  rw [h]

theorem lookup_CreateTask_self (ts : TaskStore) (text : String) (tags : List String) (due : Time) :
    (ts.CreateTask text tags due).2.tasks.lookup ts.nextId = some (ts.newTask text tags due) := by
  rw [CreateTask_tasks]
  exact AList.lookup_insert _

/-- In every state, the value returned by `CreateTask` is the successor of the
`Id` of the task that the call stores, and that task is found under its `Id`. -/
theorem CreateTask_returns_assigned_succ (ts : TaskStore) (text : String) (tags : List String)
    (due : Time) :
    (ts.CreateTask text tags due).1 = (ts.newTask text tags due).Id + 1 ∧
    (ts.CreateTask text tags due).2.GetTask (ts.newTask text tags due).Id
      = (ts.newTask text tags due, none) :=
  ⟨rfl, GetTask_of_lookup_some _ _ _ (lookup_CreateTask_self ts text tags due)⟩

/-- In every state reached from `New`, `GetTask` on the value returned by
`CreateTask` fails. -/
theorem GetTask_returned_fails (ops : List Op) (text : String) (tags : List String) (due : Time) :
    ((run New ops).CreateTask text tags due).2.GetTask ((run New ops).CreateTask text tags due).1
      = (Task.zero, some (notFound ((run New ops).nextId + 1))) := by
  have hinv : KeysBelowNext (Op.next (run New ops) (.create text tags due)) :=
    keysBelowNext_next _ _ (keysBelowNext_reachable ops) (run_nextId_le ops New)
  have hnot := nextId_not_mem_of_keysBelowNext _ hinv
  exact GetTask_of_lookup_none _ _ (AList.lookup_eq_none.mpr hnot)

/-! ## The claims -/

/-- C1 (the code departs from the claim).  On the store made by `New`, the call
`CreateTask("buy milk", ["errand"], 2024-01-05)` stores its task under key `0`
with `Id = 0` and returns `1`: the value returned is the counter after the
increment, not the identifier assigned. -/
theorem CreateTask_New_returns_one :
    (New.newTask "buy milk" ["errand"] (Time.ofDate 2024 1 5)).Id = 0 ∧
    (New.CreateTask "buy milk" ["errand"] (Time.ofDate 2024 1 5)).2.tasks.lookup 0
      = some ⟨0, "buy milk", ["errand"], Time.ofDate 2024 1 5⟩ ∧
    (New.CreateTask "buy milk" ["errand"] (Time.ofDate 2024 1 5)).1 = 1 := by
  decide

/-- C2 (the code departs from the claim).  On the store made by `New`,
`CreateTask("buy milk", ["errand"], 2024-01-05)` returns `1`, and `GetTask(1)`
called next fails with "id = 1 not found" and the zero task; the task created
is found under `0`. -/
theorem GetTask_after_CreateTask_New_fails :
    (New.CreateTask "buy milk" ["errand"] (Time.ofDate 2024 1 5)).2.GetTask
        (New.CreateTask "buy milk" ["errand"] (Time.ofDate 2024 1 5)).1
      = (Task.zero, some "id = 1 not found") ∧
    (New.CreateTask "buy milk" ["errand"] (Time.ofDate 2024 1 5)).2.GetTask 0
      = (⟨0, "buy milk", ["errand"], Time.ofDate 2024 1 5⟩, none) := by
  decide

/-- C3.  For every sequence of calls made on the store of `New`, the values
returned by its `CreateTask` calls, in call order, are strictly increasing, and
so pairwise distinct. -/
theorem createReturns_strictly_increasing (ops : List Op) :
    (createReturns New ops).Pairwise (· < ·) ∧ (createReturns New ops).Nodup :=
  ⟨createReturns_pairwise ops New,
    (createReturns_pairwise ops New).imp (fun h => ne_of_lt h)⟩

/-- C4.  In every state reached from `New`: every key is non-negative and below
`nextId`; no call decreases `nextId`; the `Id` that `CreateTask` would assign
next differs from every `Id` assigned so far (the identifiers assigned are
strictly increasing); and no entry is stored under that `Id`, so `CreateTask`
does not overwrite. -/
theorem reachable_ids_never_reused (ops : List Op) :
    (∀ k ∈ (run New ops).tasks.keys, 0 ≤ k ∧ k < (run New ops).nextId) ∧
    (∀ op : Op, (run New ops).nextId ≤ (Op.next (run New ops) op).nextId) ∧
    (assignedIds New ops).Pairwise (· < ·) ∧
    (∀ text tags due, ((run New ops).newTask text tags due).Id ∉ assignedIds New ops) ∧
    (∀ text tags due,
      (run New ops).tasks.lookup ((run New ops).newTask text tags due).Id = none) := by
  refine ⟨keysBelowNext_reachable ops, fun op => next_nextId_le _ op,
    assignedIds_pairwise ops New, ?_, ?_⟩
  · intro text tags due hmem
    exact lt_irrefl _ (assignedIds_bounds ops New _ hmem).2
  · intro text tags due
    exact AList.lookup_eq_none.mpr
      (nextId_not_mem_of_keysBelowNext _ (keysBelowNext_reachable ops))

/-- Witness of C4: after two creations, the deletion of the first task and a
third creation, the keys `1` and `2` are below `nextId = 3`, and the identifiers
assigned were `0`, `1`, `2`. -/
theorem reachable_ids_never_reused_witness :
    ((0 : Int) ≤ 2 ∧
      2 < (run New [Op.create "a" [] (Time.ofDate 2024 1 5),
        Op.create "b" [] (Time.ofDate 2024 1 5), Op.delete 0,
        Op.create "c" [] (Time.ofDate 2024 1 6)]).nextId) ∧
    assignedIds New [Op.create "a" [] (Time.ofDate 2024 1 5),
        Op.create "b" [] (Time.ofDate 2024 1 5), Op.delete 0,
        Op.create "c" [] (Time.ofDate 2024 1 6)] = [0, 1, 2] :=
  ⟨(reachable_ids_never_reused [Op.create "a" [] (Time.ofDate 2024 1 5),
        Op.create "b" [] (Time.ofDate 2024 1 5), Op.delete 0,
        Op.create "c" [] (Time.ofDate 2024 1 6)]).1 2 (by decide),
    by decide⟩

/-- C5.  `GetTask(id)` returns an error exactly when `id` is not a key of the
map; when a task is stored under `id` it returns that task and a nil error. -/
theorem GetTask_error_iff (ts : TaskStore) (id : Int) :
    ((ts.GetTask id).2 ≠ none ↔ id ∉ ts.tasks.keys) ∧
    (∀ t, ts.tasks.lookup id = some t → ts.GetTask id = (t, none)) := by
  refine ⟨?_, fun t h => GetTask_of_lookup_some ts id t h⟩
  rw [← AList.mem_keys, ← AList.lookup_eq_none]
  cases h : ts.tasks.lookup id with
  | none => simp [GetTask_of_lookup_none ts id h]
  | some t => simp [GetTask_of_lookup_some ts id t h]

/-- Witness of C5: on the store holding one task under key `0`, `GetTask(0)`
returns that task with a nil error; on the empty store it returns an error. -/
theorem GetTask_error_iff_witness :
    ((New.CreateTask "buy milk" ["errand"] (Time.ofDate 2024 1 5)).2.GetTask 0
      = (⟨0, "buy milk", ["errand"], Time.ofDate 2024 1 5⟩, none)) ∧
    ((New.GetTask 0).2 ≠ none) :=
  ⟨(GetTask_error_iff (New.CreateTask "buy milk" ["errand"] (Time.ofDate 2024 1 5)).2 0).2
      ⟨0, "buy milk", ["errand"], Time.ofDate 2024 1 5⟩ (by decide),
   (GetTask_error_iff New 0).1.mpr (by decide)⟩

/-- C6.  `DeleteTask(id)` returns an error exactly when `id` is not a key of
the map; when `id` is a key it returns nil, `id` is no longer a key afterwards,
and `GetTask(id)` and a second `DeleteTask(id)` made next both return an
error. -/
theorem DeleteTask_error_iff (ts : TaskStore) (id : Int) :
    ((ts.DeleteTask id).1 ≠ none ↔ id ∉ ts.tasks.keys) ∧
    (id ∈ ts.tasks.keys →
      (ts.DeleteTask id).1 = none ∧
      id ∉ (ts.DeleteTask id).2.tasks.keys ∧
      ((ts.DeleteTask id).2.GetTask id).2 = some (notFound id) ∧
      ((ts.DeleteTask id).2.DeleteTask id).1 = some (notFound id)) := by
  constructor
  · rw [← AList.mem_keys, ← AList.lookup_eq_none]
    cases h : ts.tasks.lookup id with
    | none => simp [DeleteTask_of_lookup_none ts id h]
    | some t => simp [DeleteTask_of_lookup_some ts id t h]
  · intro hmem
    have hsome : (ts.tasks.lookup id).isSome = true := AList.lookup_isSome.mpr hmem
    obtain ⟨t, ht⟩ := Option.isSome_iff_exists.mp hsome
    rw [DeleteTask_of_lookup_some ts id t ht]
    have hgone : ({ ts with tasks := ts.tasks.erase id } : TaskStore).tasks.lookup id = none :=
      AList.lookup_erase id ts.tasks
    refine ⟨rfl, ?_, ?_, ?_⟩
    · rw [← AList.mem_keys]
      exact AList.lookup_eq_none.mp hgone
    · rw [GetTask_of_lookup_none _ id hgone]
    · rw [DeleteTask_of_lookup_none _ id hgone]

/-- Witness of C6: on the store holding one task under key `0`, `DeleteTask(0)`
returns nil and a second `DeleteTask(0)` returns the error. -/
theorem DeleteTask_error_iff_witness :
    ((New.CreateTask "buy milk" ["errand"] (Time.ofDate 2024 1 5)).2.DeleteTask 0).1 = none ∧
    (((New.CreateTask "buy milk" ["errand"] (Time.ofDate 2024 1 5)).2.DeleteTask 0).2.DeleteTask
        0).1 = some (notFound 0) :=
  have h := (DeleteTask_error_iff
    (New.CreateTask "buy milk" ["errand"] (Time.ofDate 2024 1 5)).2 0).2 (by decide)
  ⟨h.1, h.2.2.2⟩

/-- C7.  `DeleteAllTasks` returns nil, leaves the map empty, so that
`GetAllTasks` called next returns a sequence of length `0`, and leaves `nextId`
unchanged; on a store reached from `New`, the `Id` assigned and the value
returned by a `CreateTask` made after the clear (directly, or after further
calls) are greater than every `Id` assigned before the clear. -/
theorem DeleteAllTasks_clears_keeps_counter (ts : TaskStore) (ops ops' : List Op)
    (text : String) (tags : List String) (due : Time) :
    ts.DeleteAllTasks.1 = none ∧
    ts.DeleteAllTasks.2.tasks.keys = [] ∧
    ts.DeleteAllTasks.2.GetAllTasks.length = 0 ∧
    ts.DeleteAllTasks.2.nextId = ts.nextId ∧
    (∀ v ∈ assignedIds New ops,
      v < ((run New (ops ++ Op.deleteAll :: ops')).newTask text tags due).Id ∧
      v < ((run New (ops ++ Op.deleteAll :: ops')).CreateTask text tags due).1) := by
  refine ⟨rfl, rfl, rfl, rfl, ?_⟩
  intro v hv
  have h1 := (assignedIds_bounds ops New v hv).2
  have h2 : (run New ops).nextId ≤ (run New (ops ++ Op.deleteAll :: ops')).nextId := by
    rw [run_append]
    exact run_nextId_le _ _
  have h3 : ((run New (ops ++ Op.deleteAll :: ops')).newTask text tags due).Id
      = (run New (ops ++ Op.deleteAll :: ops')).nextId := rfl
  rw [h3, CreateTask_fst]
  omega

/-- Witness of C7: after two creations and a clear, the next creation is
assigned an `Id` above the earlier `Id` `1`, namely `2`, and returns `3`. -/
theorem DeleteAllTasks_clears_keeps_counter_witness :
    (1 : Int) < ((run New ([Op.create "a" [] (Time.ofDate 2024 1 5),
        Op.create "b" [] (Time.ofDate 2024 1 5)] ++ Op.deleteAll :: [])).newTask
          "c" [] (Time.ofDate 2024 1 6)).Id ∧
    (1 : Int) < ((run New ([Op.create "a" [] (Time.ofDate 2024 1 5),
        Op.create "b" [] (Time.ofDate 2024 1 5)] ++ Op.deleteAll :: [])).CreateTask
          "c" [] (Time.ofDate 2024 1 6)).1 :=
  (DeleteAllTasks_clears_keeps_counter New
    [Op.create "a" [] (Time.ofDate 2024 1 5), Op.create "b" [] (Time.ofDate 2024 1 5)] []
    "c" [] (Time.ofDate 2024 1 6)).2.2.2.2 1 (by decide)

/-- C8 (the code departs from the claim).  On a store holding the single task
with `Tags = ["x", "x"]`, `GetTasksByTag("x")` returns a sequence of length `2`
in which that task occurs twice. -/
theorem GetTasksByTag_repeated_tag_twice :
    ((New.CreateTask "t" ["x", "x"] (Time.ofDate 2024 1 5)).2.GetTasksByTag "x").length = 2 ∧
    (New.CreateTask "t" ["x", "x"] (Time.ofDate 2024 1 5)).2.GetTasksByTag "x"
      = [⟨0, "t", ["x", "x"], Time.ofDate 2024 1 5⟩,
         ⟨0, "t", ["x", "x"], Time.ofDate 2024 1 5⟩] := by
  decide

/-- C9.  A task is an element of `GetTasksByTag(tag)` exactly when it is stored
in the map and one of its tags equals `tag`; the result is empty when no stored
task carries `tag`. -/
theorem mem_GetTasksByTag_iff (ts : TaskStore) (tag : String) (t : Task) :
    (t ∈ ts.GetTasksByTag tag ↔
      (∃ k, ts.tasks.lookup k = some t) ∧ ∃ x ∈ t.Tags, x = tag) ∧
    ((∀ k u, ts.tasks.lookup k = some u → ¬ ∃ x ∈ u.Tags, x = tag) →
      ts.GetTasksByTag tag = []) := by
  have key : ∀ u : Task, u ∈ ts.GetTasksByTag tag ↔
      (∃ k, ts.tasks.lookup k = some u) ∧ ∃ x ∈ u.Tags, x = tag := by
    intro u
    rw [GetTasksByTag_eq, stored_iff_mem_entries, List.mem_flatMap]
    constructor
    · rintro ⟨e, he, hu⟩
      obtain ⟨x, hx, hux⟩ := List.mem_flatMap.mp hu
      by_cases hxt : x = tag
      · rw [if_pos hxt, List.mem_singleton] at hux
        subst hux
        exact ⟨List.mem_map.mpr ⟨e, he, rfl⟩, x, hx, hxt⟩
      · rw [if_neg hxt] at hux
        exact absurd hux (List.not_mem_nil _)
    · rintro ⟨hstored, x, hx, hxt⟩
      obtain ⟨e, he, rfl⟩ := List.mem_map.mp hstored
      refine ⟨e, he, List.mem_flatMap.mpr ⟨x, hx, ?_⟩⟩
      rw [if_pos hxt]
      exact List.mem_singleton.mpr rfl
  refine ⟨key t, fun hnone => ?_⟩
  apply List.eq_nil_iff_forall_not_mem.mpr
  intro u hu
  obtain ⟨⟨k, hk⟩, hx⟩ := (key u).mp hu
  exact hnone k u hk hx

/-- Witness of C9: the task tagged "errand" is returned for the tag "errand",
and nothing is returned for the tag "Errand". -/
theorem mem_GetTasksByTag_iff_witness :
    (⟨0, "buy milk", ["errand"], Time.ofDate 2024 1 5⟩ ∈
      (New.CreateTask "buy milk" ["errand"] (Time.ofDate 2024 1 5)).2.GetTasksByTag "errand") ∧
    (New.CreateTask "buy milk" ["errand"] (Time.ofDate 2024 1 5)).2.GetTasksByTag "Errand" = [] :=
  ⟨(mem_GetTasksByTag_iff (New.CreateTask "buy milk" ["errand"] (Time.ofDate 2024 1 5)).2
      "errand" ⟨0, "buy milk", ["errand"], Time.ofDate 2024 1 5⟩).1.mpr
      ⟨⟨0, by decide⟩, "errand", by decide, rfl⟩,
   (mem_GetTasksByTag_iff (New.CreateTask "buy milk" ["errand"] (Time.ofDate 2024 1 5)).2
      "Errand" Task.zero).2 (by
        intro k u hk
        have hmem : (⟨k, u⟩ : Sigma (fun _ : Int => Task)) ∈
            (New.CreateTask "buy milk" ["errand"] (Time.ofDate 2024 1 5)).2.tasks.entries :=
          AList.mem_lookup_iff.mp hk
        have hu : u = ⟨0, "buy milk", ["errand"], Time.ofDate 2024 1 5⟩ := by
          have : (New.CreateTask "buy milk" ["errand"] (Time.ofDate 2024 1 5)).2.tasks.entries
              = [⟨0, ⟨0, "buy milk", ["errand"], Time.ofDate 2024 1 5⟩⟩] := by decide
          rw [this, List.mem_singleton] at hmem
          cases hmem
          rfl
        subst hu
        decide)⟩

/-- C10.  `GetTasksByDueDate(year, month, day)` returns, up to order, the stored
tasks whose `Due` has the calendar date `(year, month, day)`, one occurrence per
matching entry of the map: a task is in the result exactly when it is stored
and its date matches, whatever its time of day, and on a store reached from
`New` no task occurs twice. -/
theorem GetTasksByDueDate_exact (ts : TaskStore) (year month day : Int) (ops : List Op) :
    (ts.GetTasksByDueDate year month day).Perm
      ((ts.tasks.entries.map (fun e => e.2)).filter
        (fun t => decide (t.Due.Date = (year, month, day)))) ∧
    (∀ t, t ∈ ts.GetTasksByDueDate year month day ↔
      (∃ k, ts.tasks.lookup k = some t) ∧ t.Due.Date = (year, month, day)) ∧
    ((run New ops).GetTasksByDueDate year month day).Nodup := by
  refine ⟨?_, ?_, ?_⟩
  · rw [GetTasksByDueDate_eq]
  · intro t
    rw [GetTasksByDueDate_eq, stored_iff_mem_entries, List.mem_filter]
    simp
  · rw [GetTasksByDueDate_eq]
    exact (nodup_values_of_idIsKey _ (idIsKey_run ops New idIsKey_New)).filter _

/-- Witness of C10: of two tasks due on 2024-01-05 at 09:00 and at 17:30 and
one task due on 2024-01-06, the query for 2024-01-05 returns the second and not
the third. -/
theorem GetTasksByDueDate_exact_witness :
    (⟨1, "b", [], ⟨2024, 1, 5, 17, 30, 0, 0, 0⟩⟩ ∈
      (run New [Op.create "a" [] ⟨2024, 1, 5, 9, 0, 0, 0, 0⟩,
        Op.create "b" [] ⟨2024, 1, 5, 17, 30, 0, 0, 0⟩,
        Op.create "c" [] ⟨2024, 1, 6, 9, 0, 0, 0, 0⟩]).GetTasksByDueDate 2024 1 5) ∧
    (⟨2, "c", [], ⟨2024, 1, 6, 9, 0, 0, 0, 0⟩⟩ ∉
      (run New [Op.create "a" [] ⟨2024, 1, 5, 9, 0, 0, 0, 0⟩,
        Op.create "b" [] ⟨2024, 1, 5, 17, 30, 0, 0, 0⟩,
        Op.create "c" [] ⟨2024, 1, 6, 9, 0, 0, 0, 0⟩]).GetTasksByDueDate 2024 1 5) :=
  ⟨((GetTasksByDueDate_exact _ 2024 1 5 []).2.1 _).mpr ⟨⟨1, by decide⟩, by decide⟩,
   fun h => absurd (((GetTasksByDueDate_exact _ 2024 1 5 []).2.1 _).mp h).2 (by decide)⟩

/-! ## The list of all tasks and the invariant of the keys -/

theorem lookup_iff_mem_entries (ts : TaskStore) (k : Int) (t : Task) :
    ts.tasks.lookup k = some t ↔ (⟨k, t⟩ : Sigma (fun _ : Int => Task)) ∈ ts.tasks.entries :=
  AList.mem_lookup_iff

theorem idIsKey_iff (ts : TaskStore) :
    IdIsKey ts ↔ ∀ k t, ts.tasks.lookup k = some t → t.Id = k := by
  constructor
  · intro h k t hk
    exact h ⟨k, t⟩ ((lookup_iff_mem_entries ts k t).mp hk)
  · intro h e he
    exact h e.1 e.2 ((lookup_iff_mem_entries ts e.1 e.2).mpr he)

theorem length_values_eq_length_keys (ts : TaskStore) :
    (ts.tasks.entries.map (fun e => e.2)).length = ts.tasks.keys.length := by
  simp [AList.keys, List.keys]

/-- C11.  `GetAllTasks` returns, up to order, the values of the map, one
occurrence per key: a task is in the result exactly when it is stored, the
length is the number of keys, the result is empty when the map is empty, and
on a store reached from `New` every stored task occurs exactly once. -/
theorem GetAllTasks_perm_values (ts : TaskStore) (ops : List Op) (n : Int) :
    ts.GetAllTasks.Perm (ts.tasks.entries.map (fun e => e.2)) ∧
    (∀ t, t ∈ ts.GetAllTasks ↔ ∃ k, ts.tasks.lookup k = some t) ∧
    ts.GetAllTasks.length = ts.tasks.keys.length ∧
    ({ tasks := ∅, nextId := n } : TaskStore).GetAllTasks.length = 0 ∧
    (∀ k t, (run New ops).tasks.lookup k = some t → (run New ops).GetAllTasks.count t = 1) := by
  refine ⟨?_, ?_, ?_, rfl, ?_⟩
  · rw [GetAllTasks_eq]
  · intro t
    rw [GetAllTasks_eq, stored_iff_mem_entries]
  · rw [GetAllTasks_eq, length_values_eq_length_keys]
  · intro k t hk
    rw [GetAllTasks_eq]
    exact List.count_eq_one_of_mem
      (nodup_values_of_idIsKey _ (idIsKey_run ops New idIsKey_New))
      ((stored_iff_mem_entries _ t).mp ⟨k, hk⟩)

/-- Witness of C11: after the creation of A, B and C, task B occurs once in the
result of `GetAllTasks`. -/
theorem GetAllTasks_perm_values_witness :
    (run New [Op.create "buy milk" ["errand"] (Time.ofDate 2024 1 5),
      Op.create "write report" ["work", "urgent"] (Time.ofDate 2024 1 5),
      Op.create "call mom" ["errand"] (Time.ofDate 2024 1 6)]).GetAllTasks.count
        ⟨1, "write report", ["work", "urgent"], Time.ofDate 2024 1 5⟩ = 1 :=
  (GetAllTasks_perm_values New
    [Op.create "buy milk" ["errand"] (Time.ofDate 2024 1 5),
      Op.create "write report" ["work", "urgent"] (Time.ofDate 2024 1 5),
      Op.create "call mom" ["errand"] (Time.ofDate 2024 1 6)] 0).2.2.2.2 1 _ (by decide)

/-- C12.  In every state reached from `New`, every key `k` of the map satisfies
`tasks[k].Id = k`; the predicate holds for `New` and every call preserves
it. -/
theorem reachable_id_is_key (ops : List Op) :
    (∀ k t, (run New ops).tasks.lookup k = some t → t.Id = k) ∧
    (∀ k t, New.tasks.lookup k = some t → t.Id = k) ∧
    (∀ (ts : TaskStore) (op : Op), (∀ k t, ts.tasks.lookup k = some t → t.Id = k) →
      ∀ k t, (Op.next ts op).tasks.lookup k = some t → t.Id = k) := by
  refine ⟨?_, ?_, ?_⟩
  · exact (idIsKey_iff _).mp (idIsKey_run ops New idIsKey_New)
  · exact (idIsKey_iff _).mp idIsKey_New
  · intro ts op h
    exact (idIsKey_iff _).mp (idIsKey_next ts op ((idIsKey_iff ts).mpr h))

/-- Witness of C12: after two creations and the deletion of the first task, the
task stored under key `1` has `Id = 1`. -/
theorem reachable_id_is_key_witness :
    (⟨1, "b", [], Time.ofDate 2024 1 5⟩ : Task).Id = 1 :=
  (reachable_id_is_key [Op.create "a" [] (Time.ofDate 2024 1 5),
    Op.create "b" [] (Time.ofDate 2024 1 5), Op.delete 0]).1 1
      ⟨1, "b", [], Time.ofDate 2024 1 5⟩ (by decide)

/-- C13.  The scenario of the specification.  After the creation of A, B and C
on the store of `New`: the query for 2024-01-05 returns A and B; the query for
the tag "errand" returns A and C; `DeleteTask(B.Id)` returns nil and
`GetAllTasks` then returns A and C; a second `DeleteTask(B.Id)` returns the
error. -/
theorem scenario_A_B_C :
    scenarioStore3.GetTask 0 = (scenarioA, none) ∧
    scenarioStore3.GetTask 1 = (scenarioB, none) ∧
    scenarioStore3.GetTask 2 = (scenarioC, none) ∧
    (scenarioStore3.GetTasksByDueDate 2024 1 5).Perm [scenarioA, scenarioB] ∧
    (scenarioStore3.GetTasksByTag "errand").Perm [scenarioA, scenarioC] ∧
    (scenarioStore3.DeleteTask scenarioB.Id).1 = none ∧
    ((scenarioStore3.DeleteTask scenarioB.Id).2.GetAllTasks).Perm [scenarioA, scenarioC] ∧
    ((scenarioStore3.DeleteTask scenarioB.Id).2.DeleteTask scenarioB.Id).1
      = some "id = 1 not found" := by
  decide

/-! ## The identifiers consumed by a sequence of calls -/

theorem next_nextId_eq (ts : TaskStore) (op : Op) :
    (Op.next ts op).nextId = ts.nextId + (if op.isCreate then 1 else 0) := by
  cases op with
  | create text tags due => simp [Op.next, Op.isCreate, CreateTask_nextId]
  | delete id => simp [Op.next, Op.isCreate, DeleteTask_nextId]
  | _ => simp [Op.next, Op.isCreate, DeleteAllTasks]

theorem assigned_eq (ts : TaskStore) (op : Op) :
    (Op.assigned ts op).toList = if op.isCreate then [ts.nextId] else [] := by
  cases op <;> simp [Op.assigned, Op.isCreate, newTask]

theorem run_nextId_eq (ops : List Op) :
    ∀ ts : TaskStore, (run ts ops).nextId = ts.nextId + (ops.countP Op.isCreate : Nat) := by
  induction ops with
  | nil => intro ts; simp [run_nil]
  | cons op ops ih =>
    intro ts
    rw [run_cons, ih, next_nextId_eq, List.countP_cons]
    by_cases hc : op.isCreate = true
    · simp only [hc, if_true, Nat.cast_add, Nat.cast_one]
      omega
    · simp [hc]

theorem assignedIds_eq (ops : List Op) :
    ∀ ts : TaskStore,
      assignedIds ts ops
        = (List.range (ops.countP Op.isCreate)).map (fun i : Nat => ts.nextId + (i : Int)) := by
  induction ops with
  | nil => intro ts; simp [assignedIds]
  | cons op ops ih =>
    intro ts
    simp only [assignedIds]
    rw [ih, assigned_eq, next_nextId_eq, List.countP_cons]
    by_cases hc : op.isCreate = true
    · simp only [hc, if_true]
      rw [List.range_succ_eq_map, List.map_cons, List.map_map]
      simp only [List.singleton_append, Nat.cast_zero, add_zero, List.cons.injEq, true_and]
      apply List.map_congr_left
      intro i _
      simp only [Function.comp_apply, Nat.cast_succ]
      omega
    · simp [hc]

/-- C15.  On the store of `New`, whatever calls are interleaved, the k-th
`CreateTask` call assigns `Id = k - 1` and leaves `nextId = k`: after a
sequence with `n` creations the counter is `n`, the identifiers assigned are
`0, 1, ..., n - 1` in call order, and the next creation assigns `n` and leaves
`n + 1`. -/
theorem creations_consume_initial_segment (ops : List Op) (text : String) (tags : List String)
    (due : Time) :
    (run New ops).nextId = (ops.countP Op.isCreate : Nat) ∧
    assignedIds New ops = (List.range (ops.countP Op.isCreate)).map (fun i : Nat => (i : Int)) ∧
    ((run New ops).newTask text tags due).Id = (ops.countP Op.isCreate : Nat) ∧
    ((run New ops).CreateTask text tags due).2.nextId = (ops.countP Op.isCreate : Nat) + 1 := by
  have h1 : (run New ops).nextId = (ops.countP Op.isCreate : Nat) := by
    rw [run_nextId_eq]
    simp [New]
  refine ⟨h1, ?_, h1, ?_⟩
  · rw [assignedIds_eq]
    simp [New]
  · rw [CreateTask_nextId, h1]

/-! ## The number of occurrences in the result of `GetTasksByTag` -/

theorem flatMap_singleton_if_eq (tag : String) (task : Task) (tags : List String) :
    tags.flatMap (fun taskTag => if taskTag = tag then [task] else [])
      = List.replicate (tags.count tag) task := by
  induction tags with
  | nil => rfl
  | cons x xs ih =>
    rw [List.flatMap_cons, ih, List.count_cons]
    by_cases h : x = tag
    · simp [h, List.replicate_succ]
    · simp [h]

theorem GetTasksByTag_eq_replicate (ts : TaskStore) (tag : String) :
    ts.GetTasksByTag tag
      = ts.tasks.entries.flatMap (fun e => List.replicate (e.2.Tags.count tag) e.2) := by
  rw [GetTasksByTag_eq]
  congr 1
  funext e
  exact flatMap_singleton_if_eq tag e.2 e.2.Tags

theorem count_flatMap_replicate (tag : String) (t : Task)
    (l : List (Sigma (fun _ : Int => Task))) :
    (l.flatMap (fun e => List.replicate (e.2.Tags.count tag) e.2)).count t
      = l.countP (fun e => decide (e.2 = t)) * t.Tags.count tag := by
  induction l with
  | nil => simp
  | cons e l ih =>
    rw [List.flatMap_cons, List.count_append, ih, List.countP_cons, List.count_replicate]
    by_cases h : e.2 = t
    · simp [h, Nat.add_mul, Nat.add_comm]
    · simp [h]

theorem length_flatMap_replicate (tag : String) (l : List (Sigma (fun _ : Int => Task))) :
    (l.flatMap (fun e => List.replicate (e.2.Tags.count tag) e.2)).length
      = (l.map (fun e => e.2.Tags.count tag)).sum := by
  induction l with
  | nil => rfl
  | cons e l ih => simp [ih]

theorem countP_values_eq_count (ts : TaskStore) (t : Task) :
    ts.tasks.entries.countP (fun e => decide (e.2 = t))
      = (ts.tasks.entries.map (fun e => e.2)).count t := by
  induction ts.tasks.entries with
  | nil => rfl
  | cons e l ih =>
    rw [List.countP_cons, List.map_cons, List.count_cons, ih]
    by_cases h : e.2 = t
    · simp [h]
    · simp [h]

/-- C18.  In the result of `GetTasksByTag(tag)` a task `t` occurs once per
entry of the map that holds `t` and per position of `t.Tags` that equals
`tag`; the length of the result is the total number of occurrences of `tag` in
the `Tags` of the stored tasks; on a store reached from `New`, a stored task
`t` occurs as many times as `tag` occurs in `t.Tags`. -/
theorem count_GetTasksByTag (ts : TaskStore) (tag : String) (t : Task) (ops : List Op) :
    (ts.GetTasksByTag tag).count t
      = ts.tasks.entries.countP (fun e => decide (e.2 = t)) * t.Tags.count tag ∧
    (ts.GetTasksByTag tag).length
      = (ts.tasks.entries.map (fun e => e.2.Tags.count tag)).sum ∧
    (∀ k, (run New ops).tasks.lookup k = some t →
      ((run New ops).GetTasksByTag tag).count t = t.Tags.count tag) := by
  refine ⟨?_, ?_, ?_⟩
  · rw [GetTasksByTag_eq_replicate, count_flatMap_replicate]
  · rw [GetTasksByTag_eq_replicate, length_flatMap_replicate]
  · intro k hk
    rw [GetTasksByTag_eq_replicate, count_flatMap_replicate, countP_values_eq_count,
      List.count_eq_one_of_mem (nodup_values_of_idIsKey _ (idIsKey_run ops New idIsKey_New))
        ((stored_iff_mem_entries _ t).mp ⟨k, hk⟩), Nat.one_mul]

/-- Witness of C18: the task stored with `Tags = ["x", "y", "x"]` occurs twice
in the result for the tag "x". -/
theorem count_GetTasksByTag_witness :
    ((run New [Op.create "t" ["x", "y", "x"] (Time.ofDate 2024 1 5)]).GetTasksByTag "x").count
        ⟨0, "t", ["x", "y", "x"], Time.ofDate 2024 1 5⟩
      = (["x", "y", "x"] : List String).count "x" :=
  (count_GetTasksByTag New "x" ⟨0, "t", ["x", "y", "x"], Time.ofDate 2024 1 5⟩
    [Op.create "t" ["x", "y", "x"] (Time.ofDate 2024 1 5)]).2.2 0 (by decide)

/-! ## What `CreateTask` and `DeleteTask` leave in place -/

theorem lookup_CreateTask_ne (ts : TaskStore) (text : String) (tags : List String) (due : Time)
    (k : Int) (h : k ≠ ts.nextId) :
    (ts.CreateTask text tags due).2.tasks.lookup k = ts.tasks.lookup k := by
  rw [CreateTask_tasks]
  exact AList.lookup_insert_ne h

theorem length_keys_CreateTask (ts : TaskStore) (text : String) (tags : List String) (due : Time)
    (h : ts.nextId ∉ ts.tasks) :
    (ts.CreateTask text tags due).2.tasks.keys.length = ts.tasks.keys.length + 1 := by
  rw [CreateTask_tasks, AList.keys_insert, List.length_cons,
    List.erase_of_not_mem (fun hk => h (AList.mem_keys.mpr hk))]

/-- C19.  On a store reached from `New`, `CreateTask` adds one entry and
increments `nextId` by one: the new entry is stored under the old `nextId` with
that `Id` and the given `Text`, `Tags` and `Due`; every other key holds what it
held before, so every earlier entry is still present with the same value; and
the number of stored tasks grows by one. -/
theorem CreateTask_frame (ops : List Op) (text : String) (tags : List String) (due : Time) :
    ((run New ops).CreateTask text tags due).2.nextId = (run New ops).nextId + 1 ∧
    ((run New ops).CreateTask text tags due).2.tasks.lookup (run New ops).nextId
      = some ⟨(run New ops).nextId, text, tags, due⟩ ∧
    (∀ k, k ≠ (run New ops).nextId →
      ((run New ops).CreateTask text tags due).2.tasks.lookup k
        = (run New ops).tasks.lookup k) ∧
    (∀ k t, (run New ops).tasks.lookup k = some t →
      ((run New ops).CreateTask text tags due).2.tasks.lookup k = some t) ∧
    ((run New ops).CreateTask text tags due).2.tasks.keys.length
      = (run New ops).tasks.keys.length + 1 := by
  have hfresh : (run New ops).nextId ∉ (run New ops).tasks :=
    nextId_not_mem_of_keysBelowNext _ (keysBelowNext_reachable ops)
  refine ⟨rfl, lookup_CreateTask_self _ text tags due,
    fun k hk => lookup_CreateTask_ne _ text tags due k hk, ?_,
    length_keys_CreateTask _ text tags due hfresh⟩
  intro k t hk
  have hne : k ≠ (run New ops).nextId := by
    intro heq
    rw [heq, AList.lookup_eq_none.mpr hfresh] at hk
    exact Option.noConfusion hk
  rw [lookup_CreateTask_ne _ text tags due k hne, hk]

/-- Witness of C19: after the creation of "a", the creation of "b" keeps "a"
under key `0`. -/
theorem CreateTask_frame_witness :
    ((run New [Op.create "a" [] (Time.ofDate 2024 1 5)]).CreateTask "b" []
        (Time.ofDate 2024 1 6)).2.tasks.lookup 0
      = some ⟨0, "a", [], Time.ofDate 2024 1 5⟩ :=
  (CreateTask_frame [Op.create "a" [] (Time.ofDate 2024 1 5)] "b" []
    (Time.ofDate 2024 1 6)).2.2.2.1 0 _ (by decide)

/-- C20.  When `id` is a key of the map, `DeleteTask(id)` removes that entry
only: `id` is no longer a key, every other key holds the same task as before,
the number of stored tasks decreases by one, and `nextId` is unchanged. -/
theorem DeleteTask_frame (ts : TaskStore) (id : Int) (h : id ∈ ts.tasks.keys) :
    (ts.DeleteTask id).2.tasks.lookup id = none ∧
    (∀ k, k ≠ id → (ts.DeleteTask id).2.tasks.lookup k = ts.tasks.lookup k) ∧
    (ts.DeleteTask id).2.tasks.keys.length + 1 = ts.tasks.keys.length ∧
    (ts.DeleteTask id).2.nextId = ts.nextId := by
  have hsome : (ts.tasks.lookup id).isSome = true := AList.lookup_isSome.mpr h
  obtain ⟨t, ht⟩ := Option.isSome_iff_exists.mp hsome
  rw [DeleteTask_of_lookup_some ts id t ht]
  refine ⟨AList.lookup_erase id ts.tasks, fun k hk => AList.lookup_erase_ne hk, ?_, rfl⟩
  have hlen : (ts.tasks.erase id).keys.length = ts.tasks.keys.length - 1 := by
    rw [AList.keys_erase, List.length_erase_of_mem h]
  have hpos : 0 < ts.tasks.keys.length := List.length_pos_of_mem h
  show (ts.tasks.erase id).keys.length + 1 = ts.tasks.keys.length
  omega

/-- Witness of C20: on the store holding A, B and C, `DeleteTask(1)` leaves two
tasks, keeps A under key `0` and leaves `nextId = 3`. -/
theorem DeleteTask_frame_witness :
    (scenarioStore3.DeleteTask 1).2.tasks.lookup 0 = scenarioStore3.tasks.lookup 0 ∧
    (scenarioStore3.DeleteTask 1).2.tasks.keys.length + 1 = scenarioStore3.tasks.keys.length ∧
    (scenarioStore3.DeleteTask 1).2.nextId = scenarioStore3.nextId :=
  have h := DeleteTask_frame scenarioStore3 1 (by decide)
  ⟨h.2.1 0 (by decide), h.2.2.1, h.2.2.2⟩

/-! ## The methods statement by statement -/

theorem traced_GetTask_run (ts : TaskStore) (evs : List Event) (id : Int) :
    (Traced.GetTask id).run { store := ts, events := evs }
      = (ts.GetTask id,
          { store := ts, events := evs ++ [Event.lock, Event.readTasks, Event.unlock] }) := by
  cases h : ts.tasks.lookup id with
  | none =>
    simp [Traced.GetTask, Traced.Lock, Traced.Unlock, Traced.mapIndex, Traced.emit,
      StateT.run, bind, StateT.bind, modify, modifyGet, MonadStateOf.modifyGet, StateT.modifyGet,
      get, getThe, MonadStateOf.get, StateT.get, pure, StateT.pure, h, GetTask]
  | some t =>
    simp [Traced.GetTask, Traced.Lock, Traced.Unlock, Traced.mapIndex, Traced.emit,
      StateT.run, bind, StateT.bind, modify, modifyGet, MonadStateOf.modifyGet, StateT.modifyGet,
      get, getThe, MonadStateOf.get, StateT.get, pure, StateT.pure, h, GetTask]

theorem traced_DeleteTask_run (ts : TaskStore) (evs : List Event) (id : Int) :
    (Traced.DeleteTask id).run { store := ts, events := evs }
      = ((ts.DeleteTask id).1,
          { store := (ts.DeleteTask id).2,
            events := evs ++ (if id ∈ ts.tasks.keys
              then [Event.lock, Event.readTasks, Event.writeTasks, Event.unlock]
              else [Event.lock, Event.readTasks, Event.unlock]) }) := by
  cases h : ts.tasks.lookup id with
  | none =>
    have hk : id ∉ ts.tasks.keys := fun hm => AList.lookup_eq_none.mp h (AList.mem_keys.mpr hm)
    simp [Traced.DeleteTask, Traced.Lock, Traced.Unlock, Traced.mapIndex, Traced.emit,
      StateT.run, bind, StateT.bind, modify, modifyGet, MonadStateOf.modifyGet, StateT.modifyGet,
      get, getThe, MonadStateOf.get, StateT.get, pure, StateT.pure, h, DeleteTask, hk]
  | some t =>
    have hk : id ∈ ts.tasks.keys :=
      AList.mem_keys.mp (AList.lookup_isSome.mp (by rw [h]; rfl))
    simp [Traced.DeleteTask, Traced.Lock, Traced.Unlock, Traced.mapIndex, Traced.mapDelete,
      Traced.emit,
      StateT.run, bind, StateT.bind, modify, modifyGet, MonadStateOf.modifyGet, StateT.modifyGet,
      get, getThe, MonadStateOf.get, StateT.get, pure, StateT.pure, h, DeleteTask, hk]

theorem traced_CreateTask_run (ts : TaskStore) (evs : List Event) (text : String)
    (tags : List String) (due : Time) :
    (Traced.CreateTask text tags due).run { store := ts, events := evs }
      = ((ts.CreateTask text tags due).1,
          { store := (ts.CreateTask text tags due).2,
            events := evs ++ [Event.lock, Event.readNextId, Event.readNextId, Event.writeTasks,
              Event.readNextId, Event.writeNextId, Event.readNextId, Event.unlock] }) := by
  simp [Traced.CreateTask, Traced.Lock, Traced.Unlock, Traced.readNextId, Traced.writeNextId,
    Traced.mapAssign, Traced.emit,
    StateT.run, bind, StateT.bind, modify, modifyGet, MonadStateOf.modifyGet, StateT.modifyGet,
    get, getThe, MonadStateOf.get, StateT.get, pure, StateT.pure, TaskStore.CreateTask, newTask]

theorem traced_DeleteAllTasks_run (ts : TaskStore) (evs : List Event) :
    Traced.DeleteAllTasks.run { store := ts, events := evs }
      = (ts.DeleteAllTasks.1,
          { store := ts.DeleteAllTasks.2,
            events := evs ++ [Event.lock, Event.writeTasks, Event.unlock] }) := by
  simp [Traced.DeleteAllTasks, Traced.Lock, Traced.Unlock, Traced.mapReset, Traced.emit,
    StateT.run, bind, StateT.bind, modify, modifyGet, MonadStateOf.modifyGet, StateT.modifyGet,
    pure, StateT.pure, TaskStore.DeleteAllTasks]

theorem traced_GetAllTasks_run (ts : TaskStore) (evs : List Event) :
    Traced.GetAllTasks.run { store := ts, events := evs }
      = (ts.GetAllTasks, { store := ts, events := evs ++ [Event.readTasks] }) := by
  simp [Traced.GetAllTasks, Traced.mapRange, Traced.emit,
    StateT.run, bind, StateT.bind, modify, modifyGet, MonadStateOf.modifyGet, StateT.modifyGet,
    get, getThe, MonadStateOf.get, StateT.get, pure, StateT.pure, TaskStore.GetAllTasks]

theorem traced_GetTasksByTag_run (ts : TaskStore) (evs : List Event) (tag : String) :
    (Traced.GetTasksByTag tag).run { store := ts, events := evs }
      = (ts.GetTasksByTag tag,
          { store := ts, events := evs ++ [Event.lock, Event.readTasks, Event.unlock] }) := by
  simp [Traced.GetTasksByTag, Traced.Lock, Traced.Unlock, Traced.mapRange, Traced.emit,
    StateT.run, bind, StateT.bind, modify, modifyGet, MonadStateOf.modifyGet, StateT.modifyGet,
    get, getThe, MonadStateOf.get, StateT.get, pure, StateT.pure, TaskStore.GetTasksByTag]

theorem traced_GetTasksByDueDate_run (ts : TaskStore) (evs : List Event) (year month day : Int) :
    (Traced.GetTasksByDueDate year month day).run { store := ts, events := evs }
      = (ts.GetTasksByDueDate year month day,
          { store := ts, events := evs ++ [Event.lock, Event.readTasks, Event.unlock] }) := by
  simp [Traced.GetTasksByDueDate, Traced.Lock, Traced.Unlock, Traced.mapRange, Traced.emit,
    StateT.run, bind, StateT.bind, modify, modifyGet, MonadStateOf.modifyGet, StateT.modifyGet,
    get, getThe, MonadStateOf.get, StateT.get, pure, StateT.pure, TaskStore.GetTasksByDueDate]

theorem run_map_pure {α β : Type} (x : Body α) (f : α → β) (m : Mem) :
    (do let a ← x; return f a : Body β).run m = (f (x.run m).1, (x.run m).2) := rfl

/-- Each method, run statement by statement, returns the value and leaves the
store that its functional reading gives. -/
theorem traced_call_run (ts : TaskStore) (evs : List Event) (op : Op) :
    (Traced.call op).run { store := ts, events := evs }
      = (Op.ret ts op, { store := Op.next ts op, events := evs ++ Traced.trace ts op }) := by
  cases op with
  | create text tags due =>
    simp only [Traced.call, Traced.trace, run_map_pure, traced_CreateTask_run, Op.ret, Op.next,
      List.nil_append]
  | get id =>
    simp only [Traced.call, Traced.trace, run_map_pure, traced_GetTask_run, Op.ret, Op.next,
      List.nil_append]
  | delete id =>
    simp only [Traced.call, Traced.trace, run_map_pure, traced_DeleteTask_run, Op.ret, Op.next,
      List.nil_append]
  | deleteAll =>
    simp only [Traced.call, Traced.trace, run_map_pure, traced_DeleteAllTasks_run, Op.ret,
      Op.next, List.nil_append]
  | getAll =>
    simp only [Traced.call, Traced.trace, run_map_pure, traced_GetAllTasks_run, Op.ret, Op.next,
      List.nil_append]
  | byTag tag =>
    simp only [Traced.call, Traced.trace, run_map_pure, traced_GetTasksByTag_run, Op.ret,
      Op.next, List.nil_append]
  | byDueDate y m d =>
    simp only [Traced.call, Traced.trace, run_map_pure, traced_GetTasksByDueDate_run, Op.ret,
      Op.next, List.nil_append]

theorem trace_eq (ts : TaskStore) (op : Op) :
    Traced.trace ts op =
      match op with
      | .create _ _ _ => [Event.lock, Event.readNextId, Event.readNextId, Event.writeTasks,
          Event.readNextId, Event.writeNextId, Event.readNextId, Event.unlock]
      | .get _ => [Event.lock, Event.readTasks, Event.unlock]
      | .delete id => if id ∈ ts.tasks.keys
          then [Event.lock, Event.readTasks, Event.writeTasks, Event.unlock]
          else [Event.lock, Event.readTasks, Event.unlock]
      | .deleteAll => [Event.lock, Event.writeTasks, Event.unlock]
      | .getAll => [Event.readTasks]
      | .byTag _ => [Event.lock, Event.readTasks, Event.unlock]
      | .byDueDate _ _ _ => [Event.lock, Event.readTasks, Event.unlock] := by
  cases op with
  | create text tags due =>
    simp only [Traced.call, Traced.trace, run_map_pure, traced_CreateTask_run, List.nil_append]
  | get id =>
    simp only [Traced.call, Traced.trace, run_map_pure, traced_GetTask_run, List.nil_append]
  | delete id =>
    simp only [Traced.call, Traced.trace, run_map_pure, traced_DeleteTask_run, List.nil_append]
  | deleteAll =>
    simp only [Traced.call, Traced.trace, run_map_pure, traced_DeleteAllTasks_run,
      List.nil_append]
  | getAll =>
    simp only [Traced.call, Traced.trace, run_map_pure, traced_GetAllTasks_run, List.nil_append]
  | byTag tag =>
    simp only [Traced.call, Traced.trace, run_map_pure, traced_GetTasksByTag_run,
      List.nil_append]
  | byDueDate y m d =>
    simp only [Traced.call, Traced.trace, run_map_pure, traced_GetTasksByDueDate_run,
      List.nil_append]

/-- Every method other than `GetAllTasks` keeps the lock discipline on every
store; `GetAllTasks` keeps it on none. -/
theorem guarded_trace_iff (ts : TaskStore) (op : Op) :
    guardedFrom false (Traced.trace ts op) = true ↔ op ≠ Op.getAll := by
  rw [trace_eq]
  cases op with
  | delete id => by_cases h : id ∈ ts.tasks.keys <;> simp [h, guardedFrom]
  | _ => simp [guardedFrom]

/-! ## Calls that fail, the router, and the mutex -/

theorem results_cons (ts : TaskStore) (op : Op) (ops : List Op) :
    results ts (op :: ops) = Op.ret ts op :: results (Op.next ts op) ops := rfl

/-- C14.  `GetTask(id)`, run statement by statement, leaves the map and
`nextId` as they were, whether it succeeds or fails; `DeleteTask(id)` on an
`id` that is not a key returns its error and leaves them as they were; the
calls made afterwards return the same values and leave the same store as if
the call had not been made. -/
theorem failing_call_leaves_store (ts : TaskStore) (id : Int) (evs : List Event)
    (ops : List Op) :
    (((Traced.GetTask id).run { store := ts, events := evs }).2.store = ts ∧
      results ts (Op.get id :: ops) = Op.ret ts (Op.get id) :: results ts ops ∧
      run ts (Op.get id :: ops) = run ts ops) ∧
    (id ∉ ts.tasks.keys →
      ((Traced.DeleteTask id).run { store := ts, events := evs }).1
        = some (notFound id) ∧
      ((Traced.DeleteTask id).run { store := ts, events := evs }).2.store = ts ∧
      ts.DeleteTask id = (some (notFound id), ts) ∧
      results ts (Op.delete id :: ops)
        = Ret.err (some (notFound id)) :: results ts ops ∧
      run ts (Op.delete id :: ops) = run ts ops) := by
  refine ⟨⟨?_, rfl, rfl⟩, ?_⟩
  · rw [traced_GetTask_run]
  · intro hk
    have hnone : ts.tasks.lookup id = none :=
      AList.lookup_eq_none.mpr (fun hm => hk (AList.mem_keys.mp hm))
    have hdel := DeleteTask_of_lookup_none ts id hnone
    rw [traced_DeleteTask_run, hdel]
    refine ⟨rfl, rfl, rfl, ?_, ?_⟩
    · rw [results_cons]
      simp only [Op.ret, Op.next, hdel]
    · rw [run_cons]
      simp only [Op.next, hdel]

/-- Witness of C14: on the store holding A, B and C, `DeleteTask(7)` fails and
the store is the same afterwards. -/
theorem failing_call_leaves_store_witness :
    scenarioStore3.DeleteTask 7 = (some (notFound 7), scenarioStore3) :=
  ((failing_call_leaves_store scenarioStore3 7 [] []).2 (by decide)).2.2.1

theorem idSegment_none (path : String) (h : idSegment path = none) :
    (stringsSplit (stringsTrim path "/") '/').length < 2 := by
  unfold idSegment at h
  have := List.get?_eq_none.mp h
  omega

theorem idSegment_some (path seg : String) (h : idSegment path = some seg) :
    ¬ (stringsSplit (stringsTrim path "/") '/').length < 2 ∧
    (stringsSplit (stringsTrim path "/") '/').getD 1 "" = seg := by
  unfold idSegment at h
  refine ⟨?_, ?_⟩
  · intro hlt
    rw [List.get?_eq_none.mpr (by omega)] at h
    exact Option.noConfusion h
  · rw [List.getD_eq_getElem?_getD, ← List.get?_eq_getElem?, h]
    rfl

theorem taskHandler_of_lt (req : Request) (hp : req.Path ≠ "/task/")
    (h : (stringsSplit (stringsTrim req.Path "/") '/').length < 2) :
    taskHandler req = Dispatch.httpError StatusBadRequest := by
  simp [taskHandler, hp, h]

theorem taskHandler_of_atoi_none (req : Request) (seg : String) (hp : req.Path ≠ "/task/")
    (hs : idSegment req.Path = some seg) (ha : strconvAtoi seg = none) :
    taskHandler req = Dispatch.httpError StatusBadRequest := by
  obtain ⟨h1, h2⟩ := idSegment_some req.Path seg hs
  unfold taskHandler
  simp only [if_neg hp, if_neg h1, h2, ha]

theorem taskHandler_of_atoi_some (req : Request) (seg : String) (id : Int)
    (hp : req.Path ≠ "/task/") (hs : idSegment req.Path = some seg)
    (ha : strconvAtoi seg = some id) (hg : req.Method ≠ MethodGet)
    (hd : req.Method ≠ MethodDelete) :
    taskHandler req = Dispatch.httpError StatusMethodNotAllowed := by
  obtain ⟨h1, h2⟩ := idSegment_some req.Path seg hs
  unfold taskHandler
  simp only [if_neg hp, if_neg h1, h2, ha, if_neg hg, if_neg hd]

/-- C16, as the code has it.  `taskHandler` answers 405 to a request for
"/task/" whose method is not POST, GET or DELETE, and to a request for another
path whose id segment is a decimal integer in the range of `int` and whose
method is not GET or DELETE; it answers 400 to a request for a path other than
"/task/" whose id segment is missing, is not a decimal integer, or is a decimal
integer outside the range of `int`. -/
theorem taskHandler_status (req : Request) :
    (req.Path = "/task/" → req.Method ≠ MethodPost → req.Method ≠ MethodGet →
      req.Method ≠ MethodDelete →
      taskHandler req = Dispatch.httpError StatusMethodNotAllowed) ∧
    (req.Path ≠ "/task/" → ∀ seg, idSegment req.Path = some seg →
      isDecimalInteger seg = true → -(2 ^ 63) ≤ decimalValue seg →
      decimalValue seg ≤ 2 ^ 63 - 1 → req.Method ≠ MethodGet → req.Method ≠ MethodDelete →
      taskHandler req = Dispatch.httpError StatusMethodNotAllowed) ∧
    (req.Path ≠ "/task/" → idSegment req.Path = none →
      taskHandler req = Dispatch.httpError StatusBadRequest) ∧
    (req.Path ≠ "/task/" → ∀ seg, idSegment req.Path = some seg →
      (isDecimalInteger seg = false ∨ decimalValue seg < -(2 ^ 63) ∨
        2 ^ 63 - 1 < decimalValue seg) →
      taskHandler req = Dispatch.httpError StatusBadRequest) := by
  refine ⟨?_, ?_, ?_, ?_⟩
  · intro hp h1 h2 h3
    simp [taskHandler, hp, h1, h2, h3]
  · intro hp seg hs hdec hlo hhi hg hd
    have ha : strconvAtoi seg = some (decimalValue seg) := by
      unfold strconvAtoi
      rw [if_pos hdec, if_neg (by omega)]
    exact taskHandler_of_atoi_some req seg _ hp hs ha hg hd
  · intro hp hs
    exact taskHandler_of_lt req hp (idSegment_none req.Path hs)
  · intro hp seg hs hbad
    have ha : strconvAtoi seg = none := by
      unfold strconvAtoi
      rcases hbad with h | h
      · rw [if_neg (by simp [h])]
      · by_cases hdec : isDecimalInteger seg = true
        · rw [if_pos hdec, if_pos h]
        · rw [if_neg hdec]
    exact taskHandler_of_atoi_none req seg hp hs ha

/-- Witness of C16: PATCH on "/task/" and PUT on "/task/17" are answered with
405; GET on "/task/abc", on "/task" and on "/task/9223372036854775808" are
answered with 400. -/
theorem taskHandler_status_witness :
    taskHandler ⟨"PATCH", "/task/"⟩ = Dispatch.httpError 405 ∧
    taskHandler ⟨"PUT", "/task/17"⟩ = Dispatch.httpError 405 ∧
    taskHandler ⟨"GET", "/task"⟩ = Dispatch.httpError 400 ∧
    taskHandler ⟨"GET", "/task/abc"⟩ = Dispatch.httpError 400 ∧
    taskHandler ⟨"GET", "/task/9223372036854775808"⟩ = Dispatch.httpError 400 :=
  ⟨(taskHandler_status ⟨"PATCH", "/task/"⟩).1 rfl (by decide) (by decide) (by decide),
   (taskHandler_status ⟨"PUT", "/task/17"⟩).2.1 (by decide) "17" (by decide) (by decide)
     (by decide) (by decide) (by decide) (by decide),
   (taskHandler_status ⟨"GET", "/task"⟩).2.2.1 (by decide) (by decide),
   (taskHandler_status ⟨"GET", "/task/abc"⟩).2.2.2 (by decide) "abc" (by decide)
     (Or.inl (by decide)),
   (taskHandler_status ⟨"GET", "/task/9223372036854775808"⟩).2.2.2 (by decide)
     "9223372036854775808" (by decide) (Or.inr (Or.inr (by decide)))⟩

/-- C16, as the claim has it, fails: the id segment of
"/task/9223372036854775808" is a decimal integer and PUT is neither GET nor
DELETE, and `taskHandler` answers 400, not 405, because `strconv.Atoi` reports
a range error. -/
theorem taskHandler_out_of_range_id_not_405 :
    taskHandler ⟨"PUT", "/task/9223372036854775808"⟩ = Dispatch.httpError 400 ∧
    ¬ (∀ (req : Request) (seg : String), req.Path ≠ "/task/" →
        idSegment req.Path = some seg → isDecimalInteger seg = true →
        req.Method ≠ MethodGet → req.Method ≠ MethodDelete →
        taskHandler req = Dispatch.httpError StatusMethodNotAllowed) := by
  refine ⟨by decide, fun h => ?_⟩
  have h405 := h ⟨"PUT", "/task/9223372036854775808"⟩ "9223372036854775808"
    (by decide) (by decide) (by decide) (by decide) (by decide)
  exact absurd h405 (by decide)

/-- C17 (the code departs from the claim).  `GetAllTasks`, run on the store of
`New`, reads the map and neither locks nor unlocks the mutex, so its read is
made outside the lock; the other six methods keep the lock discipline, as
`GetTask` does here. -/
theorem GetAllTasks_reads_without_lock :
    Traced.trace New Op.getAll = [Event.readTasks] ∧
    guardedFrom false (Traced.trace New Op.getAll) = false ∧
    Traced.trace New (Op.get 0) = [Event.lock, Event.readTasks, Event.unlock] ∧
    guardedFrom false (Traced.trace New (Op.get 0)) = true := by
  decide

end Mytodo
